import Mathlib

/-
Shallow embedding of `runtime-utils.ts` (the TurboPack shared runtime
utilities): the export/namespace machinery (`esm`, `dynamicExport`,
`requireContext`) and the asynchronous module dependency coordinator
(`resolveQueue`, `wrapDeps`, and `asyncModule` with its inner
`handleAsyncDependencies` and `asyncResult`).

Modelling conventions:
- JavaScript values are modelled by `JSValue` (numbers as integers, objects
  and functions as opaque ids); JavaScript truthiness by `truthy`.
- Objects carrying property descriptors (for `esm` and the `dynamicExport`
  proxy) are ordered own-property lists (`JSObject`); getter functions are
  opaque ids evaluated through an environment `env : Nat -> JSValue`.
- The mutable state of the async coordinator is passed explicitly: queues live
  in a store `QStore` indexed by `QueueId`, and each continuation's
  `queueCount` field lives in a store `CStore` indexed by `ContId`.  Invoking
  a continuation (`fn()`) is recorded by appending its id to a fired-event
  list.
-/

/- JavaScript values. -/
inductive JSValue where
  | undefined
  | null
  | boolean (b : Bool)
  | number (n : Int)
  | string (s : String)
  | object (id : Nat)
deriving DecidableEq

/- JavaScript truthiness (`if (x)`). -/
def truthy : JSValue → Bool
  | JSValue.undefined => false
  | JSValue.null => false
  | JSValue.boolean b => b
  | JSValue.number n => n != 0
  | JSValue.string s => s != ""
  | JSValue.object _ => true

/- Property keys: strings, or the `Symbol.toStringTag` symbol used by `esm`. -/
inductive PropKey where
  | str (s : String)
  | symToStringTag
deriving DecidableEq

/- Property descriptors, covering the two shapes used by the source:
`{ value }` (data property, non-enumerable by default) and
`{ get, enumerable: true }` (accessor property). -/
inductive PropDesc where
  | dataProp (v : JSValue) (enumerable : Bool)
  | getterProp (g : Nat) (enumerable : Bool)
deriving DecidableEq

/- An object as an ordered list of own properties. -/
structure JSObject where
  props : List (PropKey × PropDesc)
deriving DecidableEq

/- `Object.prototype.hasOwnProperty.call(obj, name)`. -/
def hasOwnProp (o : JSObject) (k : PropKey) : Bool :=
  o.props.any (fun p => p.1 == k)

/- `Reflect.ownKeys(obj)` (own keys, insertion order). -/
def JSObject.keys (o : JSObject) : List PropKey :=
  o.props.map Prod.fst

/- `Reflect.get(obj, key)` restricted to own properties; getters are
evaluated through `env`. -/
def jsGet (env : Nat → JSValue) (o : JSObject) (k : PropKey) : JSValue :=
  match o.props.lookup k with
  | some (PropDesc.dataProp v _) => v
  | some (PropDesc.getterProp g _) => env g
  | none => JSValue.undefined

/- `defineProp(obj, name, options)` (runtime-utils.ts line 65): defines the
property only when `obj` does not already own `name`. -/
def defineProp (o : JSObject) (k : PropKey) (d : PropDesc) : JSObject :=
  if hasOwnProp o k then o else { props := o.props ++ [(k, d)] }

/- `esm(exports, getters)` (runtime-utils.ts line 77): stamps the
`__esModule` marker and `Symbol.toStringTag` (assumed available in the
modelled host), then installs an enumerable getter for each name in
`getters`, in iteration order. -/
def esm (exports : JSObject) (getters : List (String × Nat)) : JSObject :=
  let e1 := defineProp exports (PropKey.str "__esModule")
    (PropDesc.dataProp (JSValue.boolean true) false)
  let e2 := defineProp e1 PropKey.symToStringTag
    (PropDesc.dataProp (JSValue.string "Module") false)
  getters.foldl
    (fun ex kg => defineProp ex (PropKey.str kg.1) (PropDesc.getterProp kg.2 true))
    e2

/- Whether `o` owns an enumerable accessor (getter) property named `k`. -/
def ownsEnumerableGetter (o : JSObject) (k : PropKey) : Bool :=
  o.props.any (fun p =>
    p.1 == k &&
      match p.2 with
      | PropDesc.getterProp _ true => true
      | _ => false)

/- The `get` trap's fallback scan over the registered re-exported objects
(runtime-utils.ts lines 117-121): the first defined (non-`undefined`) value
wins. -/
def scanReexported (env : Nat → JSValue) : List JSObject → PropKey → JSValue
  | [], _ => JSValue.undefined
  | o :: rest, p =>
    let value := jsGet env o p
    if value != JSValue.undefined then value else scanReexported env rest p

/- The `get` trap of the namespace proxy created by `dynamicExport`
(runtime-utils.ts lines 109-122). -/
def proxyGet (env : Nat → JSValue) (target : JSObject)
    (reexportedObjects : List JSObject) (p : PropKey) : JSValue :=
  if hasOwnProp target p || p == PropKey.str "default" || p == PropKey.str "__esModule" then
    jsGet env target p
  else
    scanReexported env reexportedObjects p

/- The `ownKeys` trap (runtime-utils.ts lines 123-131): the target's own keys
first, then each source's own keys in registration order, skipping
`"default"` and keys already collected. -/
def proxyOwnKeys (target : JSObject) (reexportedObjects : List JSObject) : List PropKey :=
  reexportedObjects.foldl
    (fun keys obj =>
      obj.keys.foldl
        (fun ks k =>
          if k != PropKey.str "default" && !(ks.contains k) then ks ++ [k] else ks)
        keys)
    target.keys

/- Each call to `dynamicExport` appends `object` to the module's re-exported
source list, allocating the list on the first call (runtime-utils.ts
lines 104-147). -/
def dynamicExportSources (reexportedObjects : Option (List JSObject)) (object : JSObject) :
    List JSObject :=
  (reexportedObjects.getD []) ++ [object]

/- Specification-side reformulation of the `ownKeys` trap's source pass: the
keys of the list that are not `"default"` and not in `seen`, keeping first
occurrences, in order. -/
def extraKeys (seen : List PropKey) : List PropKey → List PropKey
  | [] => []
  | k :: ks =>
    if k = PropKey.str "default" ∨ k ∈ seen then extraKeys seen ks
    else k :: extraKeys (seen ++ [k]) ks

/- An entry of a `require.context` map; the thunk `entry.id()` is modelled by
its value. -/
structure RequireContextEntry where
  id : String
deriving DecidableEq

/- A JavaScript record with string keys built from a list of writes: writing
an existing key overwrites its value in place, a fresh key appends, so key
order is insertion order. -/
def jsRecordSet (m : List (String × RequireContextEntry)) (k : String)
    (v : RequireContextEntry) : List (String × RequireContextEntry) :=
  if m.any (fun p => p.1 == k) then
    m.map (fun p => if p.1 == k then (k, v) else p)
  else
    m ++ [(k, v)]

def jsRecordOf (l : List (String × RequireContextEntry)) :
    List (String × RequireContextEntry) :=
  l.foldl (fun m p => jsRecordSet m p.1 p.2) []

/- The callable part of `requireContext(sourceModule, map)` (runtime-utils.ts
lines 233-243): an unknown id throws an Error naming the id, a known id
delegates to the external `commonJsRequireContext` registry operation
(modelled as a parameter, so instantiation is exactly an application of it). -/
def requireContextCall (commonJsRequireContext : RequireContextEntry → JSValue)
    (map : List (String × RequireContextEntry)) (id : String) : Except String JSValue :=
  match map.lookup id with
  | none =>
    Except.error
      ("module " ++ id ++ " is required from a require.context, but is not in the context")
  | some entry => Except.ok (commonJsRequireContext entry)

/- `requireContext.keys()` (runtime-utils.ts lines 245-247): `Object.keys(map)`. -/
def requireContextKeys (map : List (String × RequireContextEntry)) : List String :=
  map.map Prod.fst

/- `requireContext.resolve(id)` (runtime-utils.ts lines 249-259): returns
`entry.id()`; it takes no registry operation, so it cannot instantiate. -/
def requireContextResolve (map : List (String × RequireContextEntry)) (id : String) :
    Except String String :=
  match map.lookup id with
  | none =>
    Except.error
      ("module " ++ id ++ " is resolved from a require.context, but is not in the context")
  | some entry => Except.ok entry.id

abbrev ContId := Nat

abbrev QueueId := Nat

/- `fn.queueCount` of every continuation (continuations modelled by ids). -/
abbrev CStore := ContId → Int

/- `AsyncQueue` (runtime-utils.ts line 333): the ordered list of registered
continuations plus the one-shot `resolved` flag. -/
structure AsyncQueue where
  resolved : Bool
  conts : List ContId
deriving DecidableEq

abbrev QStore := QueueId → AsyncQueue

/- First pass of `resolveQueue`: `queue.forEach((fn) => fn.queueCount--)`. -/
def queueDecPass (conts : List ContId) (c : CStore) : CStore :=
  conts.foldl (fun c fn => fun x => if x = fn then c fn - 1 else c x) c

/- One step of the second pass:
`queue.forEach((fn) => (fn.queueCount-- ? fn.queueCount++ : fn()))`.
The post-decrement yields the old count; a nonzero (truthy) old count is
immediately re-incremented (net unchanged), while a zero old count stays
decremented and the continuation fires (recorded in the event list). -/
def queueFireStep (st : CStore × List ContId) (fn : ContId) : CStore × List ContId :=
  let old := st.1 fn
  let c1 : CStore := fun x => if x = fn then old - 1 else st.1 x
  if old != 0 then
    (fun x => if x = fn then c1 x + 1 else c1 x, st.2)
  else
    (c1, st.2 ++ [fn])

def queueFirePass (conts : List ContId) (c : CStore) : CStore × List ContId :=
  conts.foldl queueFireStep (c, [])

/- `resolveQueue(queue)` (runtime-utils.ts lines 335-341): a no-op when
`queue` is absent or already resolved; otherwise sets `resolved`, runs the
decrement pass over all registered continuations, then the fire pass. -/
def resolveQueue (queue : Option AsyncQueue) (c : CStore) :
    Option AsyncQueue × CStore × List ContId :=
  match queue with
  | none => (none, c, [])
  | some q =>
    if q.resolved then (some q, c, [])
    else
      let q1 := { q with resolved := true }
      let c1 := queueDecPass q.conts c
      let r := queueFirePass q.conts c1
      (some q1, r.1, r.2)

/- A dependency after `wrapDeps` normalization (the `AsyncModuleExt` shape):
the `[turbopackExports]` snapshot, the optional `[turbopackError]` snapshot,
and the list of queues its `[turbopackQueues]` capability applies its argument
to, in order (an async module promise yields its self queue followed by its
dep queues; a wrapped plain promise yields its one fresh queue; a wrapped
plain value yields none). -/
structure DepM where
  tExports : JSValue
  tError : Option JSValue
  tQueues : List QueueId
deriving DecidableEq

/- A dependency before normalization, classified as `wrapDeps` does
(runtime-utils.ts lines 353-387): already async-capable, a plain thenable, or
a plain value. -/
inductive DepInput where
  | asyncExt (tExports : JSValue) (tError : Option JSValue) (tQueues : List QueueId)
  | plainPromise (promiseId : Nat)
  | plainValue (v : JSValue)
deriving DecidableEq

/- `wrapDeps(deps)`: async-capable deps pass through unchanged; a plain
promise is wrapped with an initially empty exports object (identified here by
the promise id) and a fresh single-shot queue allocated from `nextQ`,
initially unresolved (its settlement callbacks run later, outside this call);
a plain value is wrapped with itself as the exports snapshot and no queue. -/
def wrapDeps (deps : List DepInput) (qs : QStore) (nextQ : QueueId) :
    List DepM × QStore × QueueId :=
  deps.foldl
    (fun st d =>
      match d with
      | DepInput.asyncExt e err qids => (st.1 ++ [⟨e, err, qids⟩], st.2.1, st.2.2)
      | DepInput.plainPromise pid =>
        (st.1 ++ [⟨JSValue.object pid, none, [st.2.2]⟩],
         fun x => if x = st.2.2 then ⟨false, []⟩ else st.2.1 x,
         st.2.2 + 1)
      | DepInput.plainValue v => (st.1 ++ [⟨v, none, []⟩], st.2.1, st.2.2))
    ([], qs, nextQ)

/- The error a read of dependency `d` throws: its captured `[turbopackError]`
snapshot, when that value is truthy (`if (d[turbopackError]) throw ...`). -/
def depThrownError (d : DepM) : Option JSValue :=
  match d.tError with
  | some e => if truthy e then some e else none
  | none => none

/- `getResult` (runtime-utils.ts lines 422-426): reading the results
re-throws the first truthy captured error, otherwise yields the exports
snapshots in order. -/
def getResult : List DepM → Except JSValue (List JSValue)
  | [] => Except.ok []
  | d :: rest =>
    match depThrownError d with
    | some e => Except.error e
    | none => (getResult rest).map (fun vs => d.tExports :: vs)

/- One application of `fnQueue` (runtime-utils.ts lines 434-442) to a queue:
skip the module's own queue and any queue already in `depQueues`; otherwise
add the queue to `depQueues` and, when it is unresolved, increment
`fn.queueCount` and push the continuation onto it. -/
def fnQueueStep (selfQ : Option QueueId) (cid : ContId)
    (st : List QueueId × QStore × Nat) (q : QueueId) : List QueueId × QStore × Nat :=
  if some q ≠ selfQ ∧ q ∉ st.1 then
    let dq := st.1 ++ [q]
    if (st.2.1 q).resolved = false then
      (dq,
       fun x =>
         if x = q then { st.2.1 q with conts := (st.2.1 q).conts ++ [cid] } else st.2.1 x,
       st.2.2 + 1)
    else (dq, st.2.1, st.2.2)
  else st

/- `currentDeps.map((dep) => dep[turbopackQueues](fnQueue))`: apply `fnQueue`
to every queue exposed by every normalized dependency, in order.  `dq` is the
module's `depQueues` set as accumulated so far (it is shared by all calls of
`handleAsyncDependencies` of one module); the fresh continuation `cid` starts
with `queueCount` 0. -/
def registerDeps (selfQ : Option QueueId) (cid : ContId) (dq : List QueueId) (qs : QStore)
    (currentDeps : List DepM) : List QueueId × QStore × Nat :=
  ((currentDeps.map DepM.tQueues).flatten).foldl (fnQueueStep selfQ cid) (dq, qs, 0)

/- The value `handleAsyncDependencies` produces: either the results array
(synchronous path) or the pending promise that will later resolve to the
`getResult` thunk, carrying the normalized deps that thunk will read. -/
inductive HAResult where
  | sync (results : List JSValue)
  | deferred (currentDeps : List DepM)
deriving DecidableEq

/- `handleAsyncDependencies(deps)` (runtime-utils.ts lines 419-447):
normalize the deps, register the shared continuation, then return the pending
promise when `fn.queueCount` is nonzero, and otherwise return `getResult()`
called directly — so on the synchronous path a captured error is thrown from
this very call. -/
def handleAsyncDependencies (selfQ : Option QueueId) (cid : ContId) (dq : List QueueId)
    (qs : QStore) (nextQ : QueueId) (deps : List DepInput) :
    (List QueueId × QStore × QueueId) × Except JSValue HAResult :=
  let w := wrapDeps deps qs nextQ
  let reg := registerDeps selfQ cid dq w.2.1 w.1
  ((reg.1, reg.2.1, w.2.2),
   if reg.2.2 != 0 then Except.ok (HAResult.deferred w.1)
   else (getResult w.1).map HAResult.sync)

/- `asyncModule(module, body, hasAwait)` queue lifecycle (runtime-utils.ts
lines 389-463), with `body` abstracted as a function receiving the self queue
exactly as it is at the moment `body(...)` is invoked.  Returns the queue as
passed to `body`, the queue after the trailing `queue.resolved = false` flip
that the source performs after `body` returns, and `body`'s own result. -/
def asyncModule {α : Type} (hasAwait : Bool)
    (body : Option AsyncQueue → Option AsyncQueue × α) :
    Option AsyncQueue × Option AsyncQueue × α :=
  let queue : Option AsyncQueue :=
    if hasAwait then some { resolved := true, conts := [] } else none
  let r := body queue
  let queueFinal := r.1.map (fun q => { q with resolved := false })
  (queue, queueFinal, r.2)

/- The settlement state of the module's wrapped promise. -/
inductive PState where
  | pending
  | fulfilled (v : JSValue)
  | rejected (v : JSValue)
deriving DecidableEq

/- Settling an already settled promise is a no-op. -/
def promiseResolve (p : PState) (v : JSValue) : PState :=
  match p with
  | PState.pending => PState.fulfilled v
  | s => s

def promiseReject (p : PState) (v : JSValue) : PState :=
  match p with
  | PState.pending => PState.rejected v
  | s => s

/- The per-module state read and written by `asyncResult`. -/
structure AsyncModuleState where
  pstate : PState
  tExports : JSValue
  tError : Option JSValue
  selfQueue : Option AsyncQueue
deriving DecidableEq

/- `asyncResult(err?)` (runtime-utils.ts lines 449-457): a truthy `err`
rejects the promise with `err` and records it as the `[turbopackError]`
snapshot (`reject((promise[turbopackError] = err))`); otherwise the promise
resolves with the exports object; in both cases `resolveQueue(queue)` runs
afterwards. -/
def asyncResult (st : AsyncModuleState) (c : CStore) (err : JSValue) :
    AsyncModuleState × CStore × List ContId :=
  let st1 :=
    if truthy err then
      { st with tError := some err, pstate := promiseReject st.pstate err }
    else
      { st with pstate := promiseResolve st.pstate st.tExports }
  let r := resolveQueue st1.selfQueue c
  ({ st1 with selfQueue := r.1 }, r.2.1, r.2.2)

/- Specification-side description of the queues `fnQueue` newly adds to
`depQueues`: the first occurrences not already in `seen`, in order. -/
def dedupFirst (seen : List QueueId) : List QueueId → List QueueId
  | [] => []
  | q :: rest =>
    if q ∈ seen then dedupFirst seen rest
    else q :: dedupFirst (seen ++ [q]) rest

/- A dependency entry that is settled at registration time: a plain value, or
an async-capable dep all of whose queues are already resolved.  A plain
promise always wraps into a fresh unresolved queue, hence counts as pending. -/
def depSettled (qs : QStore) : DepInput → Bool
  | DepInput.asyncExt _ _ qids => qids.all (fun q => (qs q).resolved)
  | DepInput.plainPromise _ => false
  | DepInput.plainValue _ => true

/- The exports snapshot a dependency contributes to the results array. -/
def depExports : DepInput → JSValue
  | DepInput.asyncExt e _ _ => e
  | DepInput.plainPromise pid => JSValue.object pid
  | DepInput.plainValue v => v

/- Whether a dependency entry carries a truthy captured error snapshot. -/
def depFailed : DepInput → Bool
  | DepInput.asyncExt _ (some e) _ => truthy e
  | DepInput.asyncExt _ none _ => false
  | DepInput.plainPromise _ => false
  | DepInput.plainValue _ => false

/- Whether `handleAsyncDependencies` produced the deferred marker. -/
def isDeferredResult : Except JSValue HAResult → Bool
  | Except.ok (HAResult.deferred _) => true
  | Except.ok (HAResult.sync _) => false
  | Except.error _ => false

/- Helper lemmas about the two passes of `resolveQueue`. -/

theorem queueDecPass_eq (l : List ContId) (hnd : l.Nodup) (c : CStore) (x : ContId) :
    queueDecPass l c x = if x ∈ l then c x - 1 else c x := by
  induction l generalizing c with
  | nil => simp [queueDecPass]
  | cons a t ih =>
    rw [List.nodup_cons] at hnd
    have step : queueDecPass (a :: t) c
        = queueDecPass t (fun x => if x = a then c a - 1 else c x) := rfl
    rw [step, ih hnd.2]
    by_cases hx : x = a
    · subst hx
      simp [hnd.1]
    · simp [hx]

theorem queueFireStep_eq (c : CStore) (acc : List ContId) (fn : ContId) :
    queueFireStep (c, acc) fn =
      if c fn = 0 then ((fun x => if x = fn then c fn - 1 else c x), acc ++ [fn])
      else (c, acc) := by
  unfold queueFireStep
  by_cases h : c fn = 0
  · simp [h]
  · have hb : ((c, acc).1 fn != 0) = true := by simpa [bne_iff_ne] using h
    simp only [hb, if_true, if_neg h]
    refine congrArg (fun f => (f, acc)) ?_
    funext x
    by_cases hx : x = fn
    · subst hx
      simp
    · simp [hx]

theorem queueFirePass_aux (l : List ContId) (hnd : l.Nodup) (c : CStore) (acc : List ContId) :
    l.foldl queueFireStep (c, acc) =
      ((fun x => if x ∈ l ∧ c x = 0 then c x - 1 else c x),
       acc ++ l.filter (fun fn => decide (c fn = 0))) := by
  induction l generalizing c acc with
  | nil => simp
  | cons a t ih =>
    rw [List.nodup_cons] at hnd
    rw [List.foldl_cons, queueFireStep_eq]
    by_cases ha : c a = 0
    · rw [if_pos ha, ih hnd.2]
      congr 1
      · funext x
        by_cases hx : x = a
        · subst hx
          simp [hnd.1, ha]
        · simp [hx]
      · have hcg : t.filter (fun fn => decide ((fun x => if x = a then c a - 1 else c x) fn = 0))
            = t.filter (fun fn => decide (c fn = 0)) := by
          refine List.filter_congr ?_
          intro x hx
          have hxa : x ≠ a := fun hh => hnd.1 (hh ▸ hx)
          simp [hxa]
        rw [hcg]
        simp [List.filter_cons, ha]
    · rw [if_neg ha, ih hnd.2]
      congr 1
      · funext x
        by_cases hx : x = a
        · subst hx
          simp [ha]
        · simp [hx]
      · simp [List.filter_cons, ha]

theorem queueFirePass_eq (l : List ContId) (hnd : l.Nodup) (c : CStore) :
    queueFirePass l c =
      ((fun x => if x ∈ l ∧ c x = 0 then c x - 1 else c x),
       l.filter (fun fn => decide (c fn = 0))) := by
  have := queueFirePass_aux l hnd c []
  simpa [queueFirePass] using this

/- Full characterization of a first `resolveQueue` call on an unresolved
queue whose registered continuations are distinct: the queue is marked
resolved; after the decrement pass every registered continuation's count has
dropped by one; the fire pass fires exactly those whose count reached zero
(leaving their count at -1, i.e. original count minus two), in registration
order. -/
theorem resolveQueue_unresolved (q : AsyncQueue) (c : CStore)
    (hres : q.resolved = false) (hnd : q.conts.Nodup) :
    resolveQueue (some q) c =
      (some { q with resolved := true },
       (fun x => if x ∈ q.conts then (if c x = 1 then c x - 2 else c x - 1) else c x),
       q.conts.filter (fun fn => decide (c fn = 1))) := by
  simp only [resolveQueue, hres, Bool.false_eq_true, if_false]
  have hdec : queueDecPass q.conts c = fun x => if x ∈ q.conts then c x - 1 else c x := by
    funext x
    exact queueDecPass_eq q.conts hnd c x
  rw [hdec, queueFirePass_eq q.conts hnd]
  congr 1
  congr 1
  · funext x
    by_cases hx : x ∈ q.conts
    · by_cases h1 : c x = 1
      · simp [hx, h1]
      · have : ¬(c x - 1 = 0) := by omega
        simp [hx, h1, this]
    · simp [hx]
  · refine List.filter_congr ?_
    intro x hx
    simp [hx]
    constructor
    · intro hh
      omega
    · intro hh
      omega

/- The queues a `handleAsyncDependencies` call newly adds to the module's
`depQueues` set: first occurrences among the queues the deps expose, skipping
the module's own queue and queues already in `depQueues`. -/
def newDepQueues (selfQ : Option QueueId) (dq : List QueueId) (qlist : List QueueId) :
    List QueueId :=
  dedupFirst dq (qlist.filter (fun q => decide (some q ≠ selfQ)))

/- Among those, the queues the continuation actually gets registered on: the
ones that are not yet resolved. -/
def newRegQueues (selfQ : Option QueueId) (dq : List QueueId) (qs : QStore)
    (qlist : List QueueId) : List QueueId :=
  (newDepQueues selfQ dq qlist).filter (fun q => decide ((qs q).resolved = false))

theorem mem_dedupFirst (l seen : List QueueId) (x : QueueId) :
    x ∈ dedupFirst seen l ↔ x ∈ l ∧ x ∉ seen := by
  induction l generalizing seen with
  | nil => simp [dedupFirst]
  | cons a t ih =>
    by_cases ha : a ∈ seen
    · rw [show dedupFirst seen (a :: t) = dedupFirst seen t from by simp [dedupFirst, ha]]
      rw [ih]
      constructor
      · intro hh
        exact ⟨List.mem_cons_of_mem a hh.1, hh.2⟩
      · rintro ⟨hmem, hns⟩
        rcases List.mem_cons.mp hmem with hx | hx
        · exact absurd (hx ▸ ha) hns
        · exact ⟨hx, hns⟩
    · rw [show dedupFirst seen (a :: t) = a :: dedupFirst (seen ++ [a]) t from by
        simp [dedupFirst, ha]]
      rw [List.mem_cons, ih]
      constructor
      · rintro (hx | ⟨hmem, hns⟩)
        · exact ⟨hx ▸ List.mem_cons_self a t, hx ▸ ha⟩
        · refine ⟨List.mem_cons_of_mem a hmem, fun hc => hns ?_⟩
          simp [hc]
      · rintro ⟨hmem, hns⟩
        by_cases hx : x = a
        · exact Or.inl hx
        · rcases List.mem_cons.mp hmem with hy | hy
          · exact absurd hy hx
          · refine Or.inr ⟨hy, ?_⟩
            simp [hns, hx]

/- Full characterization of the registration pass of one
`handleAsyncDependencies` call: `depQueues` grows by the first occurrences of
the exposed queues that are not the module's own queue and not already in
`depQueues`; the continuation is pushed exactly onto those of them that are
unresolved; `fn.queueCount` is incremented once per such push and never for a
skipped queue. -/
theorem registerFold_eq (selfQ : Option QueueId) (cid : ContId) (qlist : List QueueId)
    (dq : List QueueId) (qs : QStore) (n : Nat) :
    qlist.foldl (fnQueueStep selfQ cid) (dq, qs, n) =
      (dq ++ newDepQueues selfQ dq qlist,
       fun x => if x ∈ newRegQueues selfQ dq qs qlist
         then { qs x with conts := (qs x).conts ++ [cid] } else qs x,
       n + (newRegQueues selfQ dq qs qlist).length) := by
  induction qlist generalizing dq qs n with
  | nil =>
    simp [newDepQueues, newRegQueues, dedupFirst]
  | cons qh qt ih =>
    rw [List.foldl_cons]
    by_cases hp : some qh = selfQ
    · have hstep : fnQueueStep selfQ cid (dq, qs, n) qh = (dq, qs, n) := by
        simp [fnQueueStep, hp]
      have hd : newDepQueues selfQ dq (qh :: qt) = newDepQueues selfQ dq qt := by
        simp [newDepQueues, List.filter_cons, hp]
      have hr : newRegQueues selfQ dq qs (qh :: qt) = newRegQueues selfQ dq qs qt := by
        simp [newRegQueues, hd]
      rw [hstep, ih, hd, hr]
    · by_cases hmem : qh ∈ dq
      · have hstep : fnQueueStep selfQ cid (dq, qs, n) qh = (dq, qs, n) := by
          simp [fnQueueStep, hmem]
        have hd : newDepQueues selfQ dq (qh :: qt) = newDepQueues selfQ dq qt := by
          simp [newDepQueues, List.filter_cons, hp, dedupFirst, hmem]
        have hr : newRegQueues selfQ dq qs (qh :: qt) = newRegQueues selfQ dq qs qt := by
          simp [newRegQueues, hd]
        rw [hstep, ih, hd, hr]
      · have hd : newDepQueues selfQ dq (qh :: qt)
            = qh :: newDepQueues selfQ (dq ++ [qh]) qt := by
          simp [newDepQueues, List.filter_cons, hp, dedupFirst, hmem]
        by_cases hres : (qs qh).resolved = false
        · have hstep : fnQueueStep selfQ cid (dq, qs, n) qh =
              (dq ++ [qh],
               fun x => if x = qh then { qs qh with conts := (qs qh).conts ++ [cid] }
                 else qs x,
               n + 1) := by
            simp [fnQueueStep, hp, hmem, hres]
          rw [hstep, ih]
          have hreg : newRegQueues selfQ (dq ++ [qh])
              (fun y => if y = qh then { qs qh with conts := (qs qh).conts ++ [cid] }
                else qs y) qt
              = newRegQueues selfQ (dq ++ [qh]) qs qt := by
            unfold newRegQueues
            refine List.filter_congr ?_
            intro x hx
            by_cases hxq : x = qh
            · subst hxq
              simp
            · simp [hxq]
          have hr : newRegQueues selfQ dq qs (qh :: qt)
              = qh :: newRegQueues selfQ (dq ++ [qh]) qs qt := by
            simp [newRegQueues, hd, List.filter_cons, hres]
          have hnot : qh ∉ newRegQueues selfQ (dq ++ [qh]) qs qt := by
            intro hc
            have hm := (mem_dedupFirst _ _ _).mp (List.mem_of_mem_filter hc)
            simp at hm
          rw [hreg, hd, hr]
          congr 1
          · simp
          congr 1
          · funext x
            by_cases hx : x = qh
            · subst hx
              simp [hnot]
            · by_cases hm : x ∈ newRegQueues selfQ (dq ++ [qh]) qs qt
              · simp [hm, hx]
              · simp [hm, hx]
          · simp [List.length_cons]
            omega
        · have hres' : (qs qh).resolved = true := by
            cases hb : (qs qh).resolved
            · exact absurd hb hres
            · rfl
          have hstep : fnQueueStep selfQ cid (dq, qs, n) qh = (dq ++ [qh], qs, n) := by
            simp [fnQueueStep, hp, hmem, hres']
          rw [hstep, ih]
          have hr : newRegQueues selfQ dq qs (qh :: qt)
              = newRegQueues selfQ (dq ++ [qh]) qs qt := by
            simp [newRegQueues, hd, List.filter_cons, hres']
          rw [hd, hr]
          congr 1
          simp

theorem registerDeps_eq (selfQ : Option QueueId) (cid : ContId) (dq : List QueueId)
    (qs : QStore) (cd : List DepM) :
    registerDeps selfQ cid dq qs cd =
      (dq ++ newDepQueues selfQ dq ((cd.map DepM.tQueues).flatten),
       fun x => if x ∈ newRegQueues selfQ dq qs ((cd.map DepM.tQueues).flatten)
         then { qs x with conts := (qs x).conts ++ [cid] } else qs x,
       (newRegQueues selfQ dq qs ((cd.map DepM.tQueues).flatten)).length) := by
  have h := registerFold_eq selfQ cid ((cd.map DepM.tQueues).flatten) dq qs 0
  simpa [registerDeps] using h

theorem mem_newRegQueues (selfQ : Option QueueId) (dq : List QueueId) (qs : QStore)
    (L : List QueueId) (x : QueueId) :
    x ∈ newRegQueues selfQ dq qs L ↔
      x ∈ L ∧ some x ≠ selfQ ∧ x ∉ dq ∧ (qs x).resolved = false := by
  unfold newRegQueues newDepQueues
  rw [List.mem_filter, mem_dedupFirst, List.mem_filter]
  simp only [decide_eq_true_eq]
  tauto

/-- C1: the first `resolveQueue` call on an unresolved queue marks it
resolved, decrements the pending count of every registered continuation
(first pass), and then — only after the whole decrement pass — fires exactly
the continuations whose pending count reached zero, in registration order
(second pass; a fired continuation's count is left at its decremented value
minus one, a non-fired one at its decremented value); a second `resolveQueue`
call on the resulting queue changes nothing and fires nothing, so every
registered continuation fires at most once in total. -/
theorem resolveQueue_two_phase_idempotent (q : AsyncQueue) (c : CStore)
    (hres : q.resolved = false) (hnd : q.conts.Nodup) :
    (resolveQueue (some q) c).1 = some { q with resolved := true } ∧
    (resolveQueue (some q) c).2.2 = q.conts.filter (fun fn => decide (c fn = 1)) ∧
    (∀ fn ∈ q.conts,
      (resolveQueue (some q) c).2.1 fn = if c fn = 1 then c fn - 2 else c fn - 1) ∧
    (∀ fn, fn ∉ q.conts → (resolveQueue (some q) c).2.1 fn = c fn) ∧
    resolveQueue (resolveQueue (some q) c).1 (resolveQueue (some q) c).2.1 =
      ((resolveQueue (some q) c).1, (resolveQueue (some q) c).2.1, []) ∧
    ((resolveQueue (some q) c).2.2).Nodup := by
  have h := resolveQueue_unresolved q c hres hnd
  rw [h]
  refine ⟨rfl, rfl, ?_, ?_, ?_, ?_⟩
  · intro fn hfn
    simp [hfn]
  · intro fn hfn
    simp [hfn]
  · simp [resolveQueue]
  · exact hnd.filter _

def c1WitnessQueue : AsyncQueue := ⟨false, [0, 1, 2]⟩

def c1WitnessCounts : CStore := fun x => if x = 0 then 1 else if x = 1 then 2 else 1

/-- Witness for C1 at a concrete queue: three distinct continuations with
pending counts 1, 2, 1; the first and third fire, once each. -/
theorem resolveQueue_two_phase_idempotent_witness :
    (c1WitnessQueue.resolved = false ∧ c1WitnessQueue.conts.Nodup) ∧
    ((resolveQueue (some c1WitnessQueue) c1WitnessCounts).1 =
        some { c1WitnessQueue with resolved := true } ∧
      (resolveQueue (some c1WitnessQueue) c1WitnessCounts).2.2 =
        c1WitnessQueue.conts.filter (fun fn => decide (c1WitnessCounts fn = 1)) ∧
      (∀ fn ∈ c1WitnessQueue.conts,
        (resolveQueue (some c1WitnessQueue) c1WitnessCounts).2.1 fn =
          if c1WitnessCounts fn = 1 then c1WitnessCounts fn - 2
          else c1WitnessCounts fn - 1) ∧
      (∀ fn, fn ∉ c1WitnessQueue.conts →
        (resolveQueue (some c1WitnessQueue) c1WitnessCounts).2.1 fn = c1WitnessCounts fn) ∧
      resolveQueue (resolveQueue (some c1WitnessQueue) c1WitnessCounts).1
          (resolveQueue (some c1WitnessQueue) c1WitnessCounts).2.1 =
        ((resolveQueue (some c1WitnessQueue) c1WitnessCounts).1,
         (resolveQueue (some c1WitnessQueue) c1WitnessCounts).2.1, []) ∧
      ((resolveQueue (some c1WitnessQueue) c1WitnessCounts).2.2).Nodup) :=
  ⟨⟨by decide, by decide⟩,
   resolveQueue_two_phase_idempotent c1WitnessQueue c1WitnessCounts (by decide) (by decide)⟩

/-- C2 counterexample: with `hasAwait` true, at the moment `body` is invoked
the self queue's `resolved` flag is still `true` — contrary to the claim, the
queue is not yet unresolved when `body` starts running (the body here simply
reports the flag it observes on the queue it receives). -/
theorem asyncModule_flip_before_body_counterexample :
    (asyncModule true (fun q => (q, q.map AsyncQueue.resolved))).2.2 = some true ∧
    (asyncModule true (fun q => (q, q.map AsyncQueue.resolved))).2.2 ≠ some false := by
  exact ⟨by decide, by decide⟩

/-- C2 (amended): with `hasSuspensionPoint` (`hasAwait`) true the self-queue
is created in the resolved state and `body` is invoked while it is still
resolved; the flip to unresolved happens right after the synchronous
invocation of `body` returns (not before `body` is invoked), so once
`beginAsyncModule` returns the self-queue is unresolved; with `hasAwait`
false no self-queue exists at all. -/
theorem asyncModule_queue_flip_after_body {α : Type}
    (body : Option AsyncQueue → Option AsyncQueue × α) :
    (asyncModule true body).1 = some { resolved := true, conts := [] } ∧
    Option.all (fun q => !q.resolved) (asyncModule true body).2.1 = true ∧
    (asyncModule false body).1 = none := by
  refine ⟨rfl, ?_, rfl⟩
  have h : (asyncModule true body).2.1 =
      ((body (some { resolved := true, conts := [] })).1).map
        (fun q => { q with resolved := false }) := rfl
  rw [h]
  cases (body (some { resolved := true, conts := [] })).1 <;> simp [Option.all]

def c3qs : QStore := fun _ => ⟨false, []⟩

def c3dep : DepM := ⟨JSValue.object 0, none, [0]⟩

def c3call1 : List QueueId × QStore × Nat := registerDeps none 1 [] c3qs [c3dep]

def c3call2 : List QueueId × QStore × Nat :=
  registerDeps none 2 c3call1.1 c3call1.2.1 [c3dep]

/-- C3 counterexample: the dedup set `depQueues` persists across calls of the
same module, so it is not scoped to a single call.  A first registration pass
(continuation 1, dependency exposing queue 0, empty `depQueues`) registers on
queue 0; a second pass of the same module (fresh continuation 2, same
dependency) then skips queue 0 — although queue 0 is not the caller's own
queue (there is none), is not registered during that same call, and is still
unresolved — leaving queue 0's continuation list unchanged and the new
continuation's pending count at 0. -/
theorem handleAsyncDependencies_dedup_across_calls_counterexample :
    (c3call1.2.1 0).conts = [1] ∧
    c3call1.1 = [0] ∧
    (c3call1.2.1 0).resolved = false ∧
    c3call2.2.2 = 0 ∧
    (c3call2.2.1 0).conts = [1] ∧
    (c3call2.2.1 0).conts ≠ [1, 2] :=
  ⟨by decide, by decide, by decide, by decide, by decide, by decide⟩

/-- C3 (amended): during one `handleAsyncDependencies` registration pass the
shared continuation is pushed onto queue `x` exactly when some normalized
dependency exposes `x` and `x` is not the caller's own queue, not already in
the module's `depQueues` set — which persists across all of the module's
calls, so the dedup is scoped to the module instance, not to the single call
— and not already resolved; resolved flags are untouched; a skipped queue
never increments the continuation's pending count, which ends up exactly the
number of queues pushed onto; `depQueues` also absorbs the resolved (but not
the self) queues it saw. -/
theorem registerDeps_registration_characterization (selfQ : Option QueueId) (cid : ContId)
    (dq : List QueueId) (qs : QStore) (currentDeps : List DepM) :
    (∀ x : QueueId,
      ((registerDeps selfQ cid dq qs currentDeps).2.1 x).conts =
        (qs x).conts ++
          (if x ∈ (currentDeps.map DepM.tQueues).flatten ∧ some x ≠ selfQ ∧ x ∉ dq ∧
              (qs x).resolved = false
           then [cid] else [])) ∧
    (∀ x : QueueId,
      ((registerDeps selfQ cid dq qs currentDeps).2.1 x).resolved = (qs x).resolved) ∧
    (registerDeps selfQ cid dq qs currentDeps).2.2 =
      (newRegQueues selfQ dq qs ((currentDeps.map DepM.tQueues).flatten)).length ∧
    (registerDeps selfQ cid dq qs currentDeps).1 =
      dq ++ newDepQueues selfQ dq ((currentDeps.map DepM.tQueues).flatten) := by
  have h := registerDeps_eq selfQ cid dq qs currentDeps
  rw [h]
  refine ⟨?_, ?_, rfl, rfl⟩
  · intro x
    by_cases hm : x ∈ newRegQueues selfQ dq qs ((currentDeps.map DepM.tQueues).flatten)
    · have hm' := (mem_newRegQueues selfQ dq qs _ x).mp hm
      simp [hm, hm']
    · have hm' := hm
      rw [mem_newRegQueues] at hm'
      rw [if_neg hm']
      simp [hm]
  · intro x
    by_cases hm : x ∈ newRegQueues selfQ dq qs ((currentDeps.map DepM.tQueues).flatten)
    · simp [hm]
    · simp [hm]

/- The normalized form of a dependency that is not a plain promise (the two
`wrapDeps` branches that allocate no fresh queue). -/
def wrapSettledDep : DepInput → DepM
  | DepInput.asyncExt e err qids => ⟨e, err, qids⟩
  | DepInput.plainPromise pid => ⟨JSValue.object pid, none, []⟩
  | DepInput.plainValue v => ⟨v, none, []⟩

theorem wrapDeps_fold_no_promise (deps : List DepInput) (acc : List DepM) (qs : QStore)
    (nq : QueueId) (hnp : ∀ d ∈ deps, ∀ pid, d ≠ DepInput.plainPromise pid) :
    deps.foldl
      (fun st d =>
        match d with
        | DepInput.asyncExt e err qids => (st.1 ++ [⟨e, err, qids⟩], st.2.1, st.2.2)
        | DepInput.plainPromise pid =>
          (st.1 ++ [⟨JSValue.object pid, none, [st.2.2]⟩],
           fun x => if x = st.2.2 then ⟨false, []⟩ else st.2.1 x,
           st.2.2 + 1)
        | DepInput.plainValue v => (st.1 ++ [⟨v, none, []⟩], st.2.1, st.2.2))
      (acc, qs, nq) = (acc ++ deps.map wrapSettledDep, qs, nq) := by
  induction deps generalizing acc with
  | nil => simp
  | cons d rest ih =>
    rw [List.foldl_cons]
    cases d with
    | asyncExt e err qids =>
      rw [ih _ (fun d' hd' => hnp d' (List.mem_cons_of_mem _ hd'))]
      simp [wrapSettledDep]
    | plainPromise pid =>
      exact absurd rfl (hnp _ (List.mem_cons_self _ _) pid)
    | plainValue v =>
      rw [ih _ (fun d' hd' => hnp d' (List.mem_cons_of_mem _ hd'))]
      simp [wrapSettledDep]

theorem wrapDeps_no_promise (deps : List DepInput) (qs : QStore) (nq : QueueId)
    (hnp : ∀ d ∈ deps, ∀ pid, d ≠ DepInput.plainPromise pid) :
    wrapDeps deps qs nq = (deps.map wrapSettledDep, qs, nq) := by
  have h := wrapDeps_fold_no_promise deps [] qs nq hnp
  simpa [wrapDeps] using h

theorem depSettled_no_promise (qs : QStore) (d : DepInput) (h : depSettled qs d = true) :
    ∀ pid, d ≠ DepInput.plainPromise pid := by
  intro pid hc
  subst hc
  simp [depSettled] at h

theorem getResult_no_error (cd : List DepM) (h : ∀ d ∈ cd, depThrownError d = none) :
    getResult cd = Except.ok (cd.map DepM.tExports) := by
  induction cd with
  | nil => rfl
  | cons d rest ih =>
    rw [show getResult (d :: rest)
        = match depThrownError d with
          | some e => Except.error e
          | none => (getResult rest).map (fun vs => d.tExports :: vs) from rfl]
    rw [h d (List.mem_cons_self _ _)]
    rw [ih (fun d' hd' => h d' (List.mem_cons_of_mem _ hd'))]
    rfl

theorem getResult_first_error (pre : List DepM) (d : DepM) (post : List DepM) (e : JSValue)
    (hpre : ∀ d' ∈ pre, depThrownError d' = none) (hd : depThrownError d = some e) :
    getResult (pre ++ d :: post) = Except.error e := by
  induction pre with
  | nil =>
    rw [List.nil_append]
    rw [show getResult (d :: post)
        = match depThrownError d with
          | some e => Except.error e
          | none => (getResult post).map (fun vs => d.tExports :: vs) from rfl]
    rw [hd]
  | cons p rest ih =>
    rw [List.cons_append]
    rw [show getResult (p :: (rest ++ d :: post))
        = match depThrownError p with
          | some e => Except.error e
          | none => (getResult (rest ++ d :: post)).map (fun vs => p.tExports :: vs) from rfl]
    rw [hpre p (List.mem_cons_self _ _)]
    rw [ih (fun d' hd' => hpre d' (List.mem_cons_of_mem _ hd'))]
    rfl

theorem isDeferredResult_map_sync (r : Except JSValue (List JSValue)) :
    isDeferredResult (r.map HAResult.sync) = false := by
  cases r <;> rfl

theorem settled_queues_resolved (qs : QStore) (deps : List DepInput)
    (hall : deps.all (depSettled qs) = true) :
    ∀ x ∈ ((deps.map wrapSettledDep).map DepM.tQueues).flatten, (qs x).resolved = true := by
  intro x hx
  rw [List.mem_flatten] at hx
  obtain ⟨l, hl, hxl⟩ := hx
  rw [List.mem_map] at hl
  obtain ⟨dm, hdm, rfl⟩ := hl
  rw [List.mem_map] at hdm
  obtain ⟨d, hd, rfl⟩ := hdm
  have hset := (List.all_eq_true.mp hall) d hd
  cases d with
  | asyncExt e err qids =>
    simp only [wrapSettledDep] at hxl
    simp only [depSettled, List.all_eq_true] at hset
    exact hset x hxl
  | plainPromise pid => simp [depSettled] at hset
  | plainValue v => simp [wrapSettledDep] at hxl

theorem newRegQueues_eq_nil (selfQ : Option QueueId) (dq : List QueueId) (qs : QStore)
    (L : List QueueId) (h : ∀ x ∈ L, (qs x).resolved = true) :
    newRegQueues selfQ dq qs L = [] := by
  rw [List.eq_nil_iff_forall_not_mem]
  intro x
  rw [mem_newRegQueues]
  rintro ⟨hxL, -, -, hres⟩
  simp [h x hxL] at hres

theorem depFailed_false_no_thrown (d : DepInput) (h : depFailed d = false) :
    depThrownError (wrapSettledDep d) = none := by
  cases d with
  | asyncExt e err qids =>
    cases err with
    | none => rfl
    | some e' =>
      simp only [depFailed] at h
      simp [wrapSettledDep, depThrownError, h]
  | plainPromise pid => rfl
  | plainValue v => rfl

theorem wrapSettledDep_tExports (d : DepInput) : (wrapSettledDep d).tExports = depExports d := by
  cases d <;> rfl

/-- C4 (amended): when every dependency entry is settled (a plain value, or
an async-capable dep all of whose queues are already resolved — so no entry
is a pending deferred value), `handleAsyncDependencies` returns synchronously
with no deferred marker: the results array when no settled dependency carries
a truthy captured error, and otherwise the call itself throws that captured
error (the synchronous path evaluates `getResult()` inside the call); in
general, the deferred marker is returned exactly when the continuation's
pending count is nonzero after all registrations. -/
theorem handleAsyncDependencies_settled_sync (selfQ : Option QueueId) (cid : ContId)
    (dq : List QueueId) (qs : QStore) (nextQ : QueueId) (deps : List DepInput)
    (hall : deps.all (depSettled qs) = true) :
    isDeferredResult (handleAsyncDependencies selfQ cid dq qs nextQ deps).2 = false ∧
    (deps.all (fun d => !depFailed d) = true →
      (handleAsyncDependencies selfQ cid dq qs nextQ deps).2 =
        Except.ok (HAResult.sync (deps.map depExports))) ∧
    (∀ (selfQ' : Option QueueId) (cid' : ContId) (dq' : List QueueId) (qs' : QStore)
        (nextQ' : QueueId) (deps' : List DepInput),
      isDeferredResult (handleAsyncDependencies selfQ' cid' dq' qs' nextQ' deps').2 = true ↔
        (registerDeps selfQ' cid' dq' (wrapDeps deps' qs' nextQ').2.1
          (wrapDeps deps' qs' nextQ').1).2.2 ≠ 0) := by
  have hnp : ∀ d ∈ deps, ∀ pid, d ≠ DepInput.plainPromise pid := fun d hd =>
    depSettled_no_promise qs d ((List.all_eq_true.mp hall) d hd)
  have hw := wrapDeps_no_promise deps qs nextQ hnp
  have hqres := settled_queues_resolved qs deps hall
  have hcnt : (registerDeps selfQ cid dq qs (deps.map wrapSettledDep)).2.2 = 0 := by
    rw [registerDeps_eq]
    show (newRegQueues selfQ dq qs
      (((deps.map wrapSettledDep).map DepM.tQueues).flatten)).length = 0
    rw [newRegQueues_eq_nil selfQ dq qs _ hqres]
    rfl
  have hres : (handleAsyncDependencies selfQ cid dq qs nextQ deps).2 =
      (getResult (deps.map wrapSettledDep)).map HAResult.sync := by
    simp only [handleAsyncDependencies, hw]
    simp [hcnt]
  refine ⟨?_, ?_, ?_⟩
  · rw [hres]
    exact isDeferredResult_map_sync _
  · intro hnf
    rw [hres]
    rw [getResult_no_error _ (fun d' hd' => ?_)]
    · rw [List.map_map]
      have hmc : deps.map (DepM.tExports ∘ wrapSettledDep) = deps.map depExports :=
        List.map_congr_left (fun d _ => wrapSettledDep_tExports d)
      rw [hmc]
      rfl
    · rw [List.mem_map] at hd'
      obtain ⟨d, hd, rfl⟩ := hd'
      have := (List.all_eq_true.mp hnf) d hd
      simp only [Bool.not_eq_true'] at this
      exact depFailed_false_no_thrown d this
  · intro selfQ' cid' dq' qs' nextQ' deps'
    simp only [handleAsyncDependencies]
    by_cases hz : (registerDeps selfQ' cid' dq' (wrapDeps deps' qs' nextQ').2.1
        (wrapDeps deps' qs' nextQ').1).2.2 = 0
    · simp [hz, isDeferredResult_map_sync]
    · simp [hz, isDeferredResult]

def c4qsResolved : QStore := fun _ => ⟨true, []⟩

def c4deps : List DepInput :=
  [DepInput.asyncExt (JSValue.string "v") (some (JSValue.string "boom")) [0]]

/-- C4 counterexample: a dependency list in which no entry is pending (the
sole dependency's only queue, queue 0, is already resolved) on which
`handleAsyncDependencies` does NOT return the results array synchronously:
the dependency settled with captured error `"boom"`, the pending count stays
0, and the synchronous path calls `getResult()` inside the call, so the call
itself throws `"boom"` instead of returning results (no deferred marker is
produced either). -/
theorem handleAsyncDependencies_sync_throw_counterexample :
    c4deps.all (depSettled c4qsResolved) = true ∧
    (handleAsyncDependencies none 1 [] c4qsResolved 5 c4deps).2 =
      Except.error (JSValue.string "boom") ∧
    isDeferredResult (handleAsyncDependencies none 1 [] c4qsResolved 5 c4deps).2 = false ∧
    (handleAsyncDependencies none 1 [] c4qsResolved 5 c4deps).2 ≠
      Except.ok (HAResult.sync [JSValue.string "v"]) := by
  refine ⟨by decide, by rfl, by rfl, ?_⟩
  rw [show (handleAsyncDependencies none 1 [] c4qsResolved 5 c4deps).2 =
      Except.error (JSValue.string "boom") from rfl]
  simp

def c4WitnessDeps : List DepInput :=
  [DepInput.plainValue (JSValue.number 3), DepInput.asyncExt (JSValue.string "w") none [2]]

/-- Witness for C4 at a concrete all-settled dependency list (a plain value
and an async-capable dep whose only queue is resolved) with no captured
errors. -/
theorem handleAsyncDependencies_settled_sync_witness :
    c4WitnessDeps.all (depSettled c4qsResolved) = true ∧
    (isDeferredResult (handleAsyncDependencies none 7 [] c4qsResolved 5 c4WitnessDeps).2
        = false ∧
      (c4WitnessDeps.all (fun d => !depFailed d) = true →
        (handleAsyncDependencies none 7 [] c4qsResolved 5 c4WitnessDeps).2 =
          Except.ok (HAResult.sync (c4WitnessDeps.map depExports))) ∧
      (∀ (selfQ' : Option QueueId) (cid' : ContId) (dq' : List QueueId) (qs' : QStore)
          (nextQ' : QueueId) (deps' : List DepInput),
        isDeferredResult (handleAsyncDependencies selfQ' cid' dq' qs' nextQ' deps').2 = true ↔
          (registerDeps selfQ' cid' dq' (wrapDeps deps' qs' nextQ').2.1
            (wrapDeps deps' qs' nextQ').1).2.2 ≠ 0)) :=
  ⟨by decide,
   handleAsyncDependencies_settled_sync none 7 [] c4qsResolved 5 c4WitnessDeps (by decide)⟩

def c6qs : QStore := fun _ => ⟨true, []⟩

def c6deps : List DepInput :=
  [DepInput.asyncExt (JSValue.number 7) (some (JSValue.string "fail")) [3]]

/-- C6 counterexample: a dependency that settled with failure (captured error
`"fail"`, its queue already resolved) DOES cause an error at registration
time when the pending count is zero: the `handleAsyncDependencies` call
itself throws `"fail"`, failing a consumer that never reads the results. -/
theorem handleAsyncDependencies_failed_dep_registration_counterexample :
    (handleAsyncDependencies none 2 [] c6qs 9 c6deps).2 =
      Except.error (JSValue.string "fail") ∧
    isDeferredResult (handleAsyncDependencies none 2 [] c6qs 9 c6deps).2 = false ∧
    (handleAsyncDependencies none 2 [] c6qs 9 c6deps).2 ≠
      Except.ok (HAResult.sync [JSValue.number 7]) := by
  refine ⟨by rfl, by rfl, ?_⟩
  rw [show (handleAsyncDependencies none 2 [] c6qs 9 c6deps).2 =
      Except.error (JSValue.string "fail") from rfl]
  simp

/-- C6 (amended): failure propagation is lazy exactly on the deferred path.
Reading the results (`getResult`) re-throws the first failed dependency's
captured original error at the point of read; when the pending count after
registration is nonzero, the call returns the deferred marker without
consulting any error snapshot, so a settled-failed dependency causes no error
at registration time and a consumer that never reads the results never sees
it; but when the pending count is zero, `handleAsyncDependencies` evaluates
`getResult()` itself, so the captured error is thrown synchronously from the
call even if the consumer never reads the results. -/
theorem failed_dep_lazy_read_deferred_eager_sync
    (selfQ : Option QueueId) (cid : ContId) (dq : List QueueId) (qs : QStore)
    (nextQ : QueueId) (deps : List DepInput)
    (pre post : List DepM) (d : DepM) (e : JSValue)
    (hpre : ∀ d' ∈ pre, depThrownError d' = none) (hd : depThrownError d = some e) :
    getResult (pre ++ d :: post) = Except.error e ∧
    ((registerDeps selfQ cid dq (wrapDeps deps qs nextQ).2.1
        (wrapDeps deps qs nextQ).1).2.2 ≠ 0 →
      (handleAsyncDependencies selfQ cid dq qs nextQ deps).2 =
        Except.ok (HAResult.deferred (wrapDeps deps qs nextQ).1)) ∧
    ((registerDeps selfQ cid dq (wrapDeps deps qs nextQ).2.1
        (wrapDeps deps qs nextQ).1).2.2 = 0 →
      (handleAsyncDependencies selfQ cid dq qs nextQ deps).2 =
        (getResult (wrapDeps deps qs nextQ).1).map HAResult.sync) := by
  refine ⟨getResult_first_error pre d post e hpre hd, ?_, ?_⟩
  · intro hnz
    simp only [handleAsyncDependencies]
    simp [hnz]
  · intro hz
    simp only [handleAsyncDependencies]
    simp [hz]

def c6WitnessDep : DepM := ⟨JSValue.number 1, some (JSValue.string "oops"), []⟩

def c6WitnessDeps : List DepInput := [DepInput.plainPromise 0]

def c6WitnessQs : QStore := fun _ => ⟨true, []⟩

/-- Witness for C6 at concrete inputs: reading a failed settled dependency
through `getResult` re-throws its error, and a call whose pending count is 1
(one plain-promise dep wrapping into a fresh unresolved queue) takes the
deferred path. -/
theorem failed_dep_lazy_read_deferred_eager_sync_witness :
    ((∀ d' ∈ ([] : List DepM), depThrownError d' = none) ∧
      depThrownError c6WitnessDep = some (JSValue.string "oops")) ∧
    (getResult ([] ++ c6WitnessDep :: []) = Except.error (JSValue.string "oops") ∧
      ((registerDeps none 3 [] (wrapDeps c6WitnessDeps c6WitnessQs 0).2.1
          (wrapDeps c6WitnessDeps c6WitnessQs 0).1).2.2 ≠ 0 →
        (handleAsyncDependencies none 3 [] c6WitnessQs 0 c6WitnessDeps).2 =
          Except.ok (HAResult.deferred (wrapDeps c6WitnessDeps c6WitnessQs 0).1)) ∧
      ((registerDeps none 3 [] (wrapDeps c6WitnessDeps c6WitnessQs 0).2.1
          (wrapDeps c6WitnessDeps c6WitnessQs 0).1).2.2 = 0 →
        (handleAsyncDependencies none 3 [] c6WitnessQs 0 c6WitnessDeps).2 =
          (getResult (wrapDeps c6WitnessDeps c6WitnessQs 0).1).map HAResult.sync)) :=
  ⟨⟨by simp, by decide⟩,
   failed_dep_lazy_read_deferred_eager_sync none 3 [] c6WitnessQs 0 c6WitnessDeps
     [] [] c6WitnessDep (JSValue.string "oops") (by simp) (by decide)⟩

/-- C5: `asyncResult` called with a truthy error rejects the module's pending
promise with that error, records it as the deferred value's captured
`[turbopackError]` snapshot, and still resolves the module's self-queue: the
queue is marked resolved, every registered continuation's pending count is
decremented, and exactly those whose count reached zero fire, in registration
order — so everything waiting on the queue is unblocked, with the failure
observable only in the recorded snapshot. -/
theorem asyncResult_error_rejects_and_resolves_queue (st : AsyncModuleState) (c : CStore)
    (err : JSValue) (q : AsyncQueue)
    (herr : truthy err = true) (hp : st.pstate = PState.pending)
    (hq : st.selfQueue = some q) (hres : q.resolved = false) (hnd : q.conts.Nodup) :
    (asyncResult st c err).1.pstate = PState.rejected err ∧
    (asyncResult st c err).1.tError = some err ∧
    (asyncResult st c err).1.selfQueue = some { q with resolved := true } ∧
    (asyncResult st c err).2.2 = q.conts.filter (fun fn => decide (c fn = 1)) ∧
    (∀ fn ∈ q.conts,
      (asyncResult st c err).2.1 fn = if c fn = 1 then c fn - 2 else c fn - 1) ∧
    (∀ fn, fn ∉ q.conts → (asyncResult st c err).2.1 fn = c fn) := by
  have hchar := resolveQueue_unresolved q c hres hnd
  simp only [asyncResult, herr, if_true, hq, hchar, hp, promiseReject]
  refine ⟨trivial, trivial, trivial, trivial, ?_, ?_⟩
  · intro fn hfn
    simp [hfn]
  · intro fn hfn
    simp [hfn]

def c5WitnessQueue : AsyncQueue := ⟨false, [4]⟩

def c5WitnessState : AsyncModuleState :=
  ⟨PState.pending, JSValue.object 1, none, some c5WitnessQueue⟩

/-- Witness for C5 at a concrete failed module: one continuation with pending
count 1, which fires when the self-queue resolves despite the error. -/
theorem asyncResult_error_rejects_and_resolves_queue_witness :
    (truthy (JSValue.string "E") = true ∧ c5WitnessState.pstate = PState.pending ∧
      c5WitnessState.selfQueue = some c5WitnessQueue ∧
      c5WitnessQueue.resolved = false ∧ c5WitnessQueue.conts.Nodup) ∧
    ((asyncResult c5WitnessState (fun _ => 1) (JSValue.string "E")).1.pstate =
        PState.rejected (JSValue.string "E") ∧
      (asyncResult c5WitnessState (fun _ => 1) (JSValue.string "E")).1.tError =
        some (JSValue.string "E") ∧
      (asyncResult c5WitnessState (fun _ => 1) (JSValue.string "E")).1.selfQueue =
        some { c5WitnessQueue with resolved := true } ∧
      (asyncResult c5WitnessState (fun _ => 1) (JSValue.string "E")).2.2 =
        c5WitnessQueue.conts.filter (fun fn => decide ((fun _ => (1 : Int)) fn = 1)) ∧
      (∀ fn ∈ c5WitnessQueue.conts,
        (asyncResult c5WitnessState (fun _ => 1) (JSValue.string "E")).2.1 fn =
          if (fun _ => (1 : Int)) fn = 1 then (fun _ => (1 : Int)) fn - 2
          else (fun _ => (1 : Int)) fn - 1) ∧
      (∀ fn, fn ∉ c5WitnessQueue.conts →
        (asyncResult c5WitnessState (fun _ => 1) (JSValue.string "E")).2.1 fn =
          (fun _ => (1 : Int)) fn)) :=
  ⟨⟨by decide, by decide, by decide, by decide, by decide⟩,
   asyncResult_error_rejects_and_resolves_queue c5WitnessState (fun _ => 1)
     (JSValue.string "E") c5WitnessQueue (by decide) (by decide) (by decide)
     (by decide) (by decide)⟩

/-- C10: `asyncResult` called with any falsy error argument (undefined, null,
0, the empty string, false) takes the success path: the module's pending
promise is resolved with the exports object, the error snapshot is left
untouched (none is recorded), and the self-queue is still resolved exactly as
on success — a falsy rejection reason is silently converted into success. -/
theorem asyncResult_falsy_error_success (st : AsyncModuleState) (c : CStore)
    (err : JSValue) (q : AsyncQueue)
    (herr : truthy err = false) (hp : st.pstate = PState.pending)
    (hq : st.selfQueue = some q) (hres : q.resolved = false) (hnd : q.conts.Nodup) :
    (asyncResult st c err).1.pstate = PState.fulfilled st.tExports ∧
    (asyncResult st c err).1.tError = st.tError ∧
    (asyncResult st c err).1.selfQueue = some { q with resolved := true } ∧
    (asyncResult st c err).2.2 = q.conts.filter (fun fn => decide (c fn = 1)) := by
  have hchar := resolveQueue_unresolved q c hres hnd
  simp only [asyncResult, herr, Bool.false_eq_true, if_false, hq, hchar, hp, promiseResolve]
  exact ⟨trivial, trivial, trivial, trivial⟩

/-- Witness for C10 with the falsy error 0: the module is treated as a
success and the waiting continuation is unblocked. -/
theorem asyncResult_falsy_error_success_witness :
    (truthy (JSValue.number 0) = false ∧
      (⟨PState.pending, JSValue.object 2, none, some (⟨false, [6]⟩ : AsyncQueue)⟩ :
        AsyncModuleState).pstate = PState.pending) ∧
    ((asyncResult ⟨PState.pending, JSValue.object 2, none, some ⟨false, [6]⟩⟩ (fun _ => 1)
        (JSValue.number 0)).1.pstate = PState.fulfilled (JSValue.object 2) ∧
      (asyncResult ⟨PState.pending, JSValue.object 2, none, some ⟨false, [6]⟩⟩ (fun _ => 1)
        (JSValue.number 0)).1.tError = none ∧
      (asyncResult ⟨PState.pending, JSValue.object 2, none, some ⟨false, [6]⟩⟩ (fun _ => 1)
        (JSValue.number 0)).1.selfQueue = some { (⟨false, [6]⟩ : AsyncQueue) with resolved := true } ∧
      (asyncResult ⟨PState.pending, JSValue.object 2, none, some ⟨false, [6]⟩⟩ (fun _ => 1)
        (JSValue.number 0)).2.2 =
        (⟨false, [6]⟩ : AsyncQueue).conts.filter (fun fn => decide ((fun _ => (1 : Int)) fn = 1))) :=
  ⟨⟨by decide, by decide⟩,
   asyncResult_falsy_error_success ⟨PState.pending, JSValue.object 2, none, some ⟨false, [6]⟩⟩
     (fun _ => 1) (JSValue.number 0) ⟨false, [6]⟩ (by decide) (by decide) (by decide)
     (by decide) (by decide)⟩

theorem jsObject_ext (o1 o2 : JSObject) (h : o1.props = o2.props) : o1 = o2 := by
  cases o1
  cases o2
  cases h
  rfl

theorem hasOwnProp_mk_append (A B : List (PropKey × PropDesc)) (k : PropKey) :
    hasOwnProp ⟨A ++ B⟩ k = (hasOwnProp ⟨A⟩ k || hasOwnProp ⟨B⟩ k) := by
  simp [hasOwnProp, List.any_append]

theorem hasOwnProp_defineProp (o : JSObject) (k : PropKey) (d : PropDesc) (k' : PropKey) :
    hasOwnProp (defineProp o k d) k'
      = (hasOwnProp o k' || (!hasOwnProp o k && k == k')) := by
  by_cases h : hasOwnProp o k = true
  · simp [defineProp, h]
  · have h' : hasOwnProp o k = false := by
      cases hb : hasOwnProp o k
      · rfl
      · exact absurd hb h
    have h'' : (o.props.any fun p => p.1 == k) = false := h'
    simp [defineProp, hasOwnProp, List.any_append, h'', h']

theorem defineProp_props (o : JSObject) (k : PropKey) (d : PropDesc) :
    (defineProp o k d).props = o.props ++ (if hasOwnProp o k then [] else [(k, d)]) := by
  by_cases h : hasOwnProp o k = true
  · simp [defineProp, h]
  · have h' : hasOwnProp o k = false := by
      cases hb : hasOwnProp o k
      · rfl
      · exact absurd hb h
    simp [defineProp, h']

theorem esm_loop (g : List (String × Nat)) (acc : JSObject)
    (hnd : (g.map Prod.fst).Nodup) :
    (g.foldl
      (fun ex kg => defineProp ex (PropKey.str kg.1) (PropDesc.getterProp kg.2 true))
      acc).props =
      acc.props ++ (g.filter (fun kg => !hasOwnProp acc (PropKey.str kg.1))).map
        (fun kg => (PropKey.str kg.1, PropDesc.getterProp kg.2 true)) := by
  induction g generalizing acc with
  | nil => simp
  | cons kg rest ih =>
    rw [List.map_cons, List.nodup_cons] at hnd
    rw [List.foldl_cons]
    by_cases how : hasOwnProp acc (PropKey.str kg.1) = true
    · have hstep : defineProp acc (PropKey.str kg.1) (PropDesc.getterProp kg.2 true) = acc := by
        simp [defineProp, how]
      rw [hstep, ih acc hnd.2]
      simp [List.filter_cons, how]
    · have how' : hasOwnProp acc (PropKey.str kg.1) = false := by
        cases hb : hasOwnProp acc (PropKey.str kg.1)
        · rfl
        · exact absurd hb how
      have hstep : defineProp acc (PropKey.str kg.1) (PropDesc.getterProp kg.2 true)
          = ⟨acc.props ++ [(PropKey.str kg.1, PropDesc.getterProp kg.2 true)]⟩ := by
        simp [defineProp, how']
      rw [hstep, ih _ hnd.2]
      have hcong : rest.filter (fun kg' =>
            !hasOwnProp ⟨acc.props ++ [(PropKey.str kg.1, PropDesc.getterProp kg.2 true)]⟩
              (PropKey.str kg'.1))
          = rest.filter (fun kg' => !hasOwnProp acc (PropKey.str kg'.1)) := by
        refine List.filter_congr ?_
        intro x hx
        have hne : (PropKey.str kg.1 == PropKey.str x.1) = false := by
          rw [beq_eq_false_iff_ne]
          intro hcontra
          have hx1 : kg.1 = x.1 := by injection hcontra
          exact hnd.1 (hx1 ▸ List.mem_map_of_mem Prod.fst hx)
        rw [hasOwnProp_mk_append]
        have hsingle : hasOwnProp ⟨[(PropKey.str kg.1, PropDesc.getterProp kg.2 true)]⟩
            (PropKey.str x.1) = false := by
          simp [hasOwnProp, hne]
        rw [hsingle]
        simp
      rw [hcong]
      simp [List.filter_cons, how']

theorem hasOwnProp_props (o : JSObject) (k : PropKey) :
    hasOwnProp o k = (o.props.any fun p => p.1 == k) := rfl

theorem esm_props_characterization (g : List (String × Nat)) (t : JSObject)
    (hnd : (g.map Prod.fst).Nodup) :
    (esm t g).props =
      t.props
      ++ (if hasOwnProp t (PropKey.str "__esModule") then []
          else [(PropKey.str "__esModule", PropDesc.dataProp (JSValue.boolean true) false)])
      ++ (if hasOwnProp t PropKey.symToStringTag then []
          else [(PropKey.symToStringTag, PropDesc.dataProp (JSValue.string "Module") false)])
      ++ (g.filter (fun kg => !(kg.1 == "__esModule") && !hasOwnProp t (PropKey.str kg.1))).map
          (fun kg => (PropKey.str kg.1, PropDesc.getterProp kg.2 true)) := by
  have hesm : esm t g = g.foldl
      (fun ex kg => defineProp ex (PropKey.str kg.1) (PropDesc.getterProp kg.2 true))
      (defineProp
        (defineProp t (PropKey.str "__esModule") (PropDesc.dataProp (JSValue.boolean true) false))
        PropKey.symToStringTag (PropDesc.dataProp (JSValue.string "Module") false)) := rfl
  have htag : hasOwnProp
      (defineProp t (PropKey.str "__esModule") (PropDesc.dataProp (JSValue.boolean true) false))
      PropKey.symToStringTag = hasOwnProp t PropKey.symToStringTag := by
    rw [hasOwnProp_defineProp]
    simp
  have he2 : (defineProp
      (defineProp t (PropKey.str "__esModule") (PropDesc.dataProp (JSValue.boolean true) false))
      PropKey.symToStringTag (PropDesc.dataProp (JSValue.string "Module") false)).props =
      t.props
      ++ (if hasOwnProp t (PropKey.str "__esModule") then []
          else [(PropKey.str "__esModule", PropDesc.dataProp (JSValue.boolean true) false)])
      ++ (if hasOwnProp t PropKey.symToStringTag then []
          else [(PropKey.symToStringTag, PropDesc.dataProp (JSValue.string "Module") false)]) := by
    rw [defineProp_props, htag, defineProp_props]
  have hbase : ∀ s : String,
      hasOwnProp (defineProp
        (defineProp t (PropKey.str "__esModule") (PropDesc.dataProp (JSValue.boolean true) false))
        PropKey.symToStringTag (PropDesc.dataProp (JSValue.string "Module") false))
        (PropKey.str s)
      = (hasOwnProp t (PropKey.str s) || (s == "__esModule")) := by
    intro s
    rw [hasOwnProp_defineProp, hasOwnProp_defineProp]
    have hct : (PropKey.symToStringTag == PropKey.str s) = false := by simp
    rw [hct]
    by_cases hs : s = "__esModule"
    · subst hs
      cases hm : hasOwnProp t (PropKey.str "__esModule") <;> simp [hm]
    · have h1 : (PropKey.str "__esModule" == PropKey.str s) = false := by
        rw [beq_eq_false_iff_ne]
        intro hcontra
        have hinj : "__esModule" = s := by injection hcontra
        exact hs hinj.symm
      have h2 : (s == "__esModule") = false := by
        rw [beq_eq_false_iff_ne]
        exact hs
      simp [h1, h2]
  rw [hesm, esm_loop g _ hnd, he2]
  have hfc : (g.filter (fun kg => !hasOwnProp (defineProp
        (defineProp t (PropKey.str "__esModule") (PropDesc.dataProp (JSValue.boolean true) false))
        PropKey.symToStringTag (PropDesc.dataProp (JSValue.string "Module") false))
        (PropKey.str kg.1)))
      = g.filter (fun kg => !(kg.1 == "__esModule") && !hasOwnProp t (PropKey.str kg.1)) := by
    refine List.filter_congr ?_
    intro kg _
    rw [hbase kg.1]
    simp [Bool.not_or, Bool.and_comm]
  rw [hfc]

/-- C7 (amended): `esm` first installs the `__esModule` marker and the
`Symbol.toStringTag` tag as non-enumerable data properties (each only when
not already owned), then appends an enumerable getter for exactly those names
in `getters` that the target does not already own AND that are not the marker
name `"__esModule"` (which the marker pass has just claimed) — so an
enumerable getter is defined iff the name was not already owned and is not
`"__esModule"`; pre-existing own properties are never overwritten (the
original property list stays an untouched prefix), and calling `esm` twice
with the same getters leaves the target exactly as after the first call. -/
theorem esm_characterization_idempotent (t : JSObject) (g : List (String × Nat))
    (hnd : (g.map Prod.fst).Nodup) :
    ((esm t g).props =
      t.props
      ++ (if hasOwnProp t (PropKey.str "__esModule") then []
          else [(PropKey.str "__esModule", PropDesc.dataProp (JSValue.boolean true) false)])
      ++ (if hasOwnProp t PropKey.symToStringTag then []
          else [(PropKey.symToStringTag, PropDesc.dataProp (JSValue.string "Module") false)])
      ++ (g.filter (fun kg => !(kg.1 == "__esModule") && !hasOwnProp t (PropKey.str kg.1))).map
          (fun kg => (PropKey.str kg.1, PropDesc.getterProp kg.2 true))) ∧
    esm (esm t g) g = esm t g := by
  have hprops := esm_props_characterization g t hnd
  refine ⟨hprops, ?_⟩
  apply jsObject_ext
  rw [esm_props_characterization g (esm t g) hnd]
  have hownEsm : hasOwnProp (esm t g) (PropKey.str "__esModule") = true := by
    rw [hasOwnProp_props, hprops]
    simp only [List.any_append, Bool.or_eq_true]
    by_cases h : hasOwnProp t (PropKey.str "__esModule") = true
    · exact Or.inl (Or.inl (Or.inl h))
    · have h' : hasOwnProp t (PropKey.str "__esModule") = false := by
        cases hb : hasOwnProp t (PropKey.str "__esModule")
        · rfl
        · exact absurd hb h
      refine Or.inl (Or.inl (Or.inr ?_))
      simp [h']
  have hownTag : hasOwnProp (esm t g) PropKey.symToStringTag = true := by
    rw [hasOwnProp_props, hprops]
    simp only [List.any_append, Bool.or_eq_true]
    by_cases h : hasOwnProp t PropKey.symToStringTag = true
    · exact Or.inl (Or.inl (Or.inl h))
    · have h' : hasOwnProp t PropKey.symToStringTag = false := by
        cases hb : hasOwnProp t PropKey.symToStringTag
        · rfl
        · exact absurd hb h
      refine Or.inl (Or.inr ?_)
      simp [h']
  have hfilterNil : g.filter (fun kg => !(kg.1 == "__esModule") &&
      !hasOwnProp (esm t g) (PropKey.str kg.1)) = [] := by
    rw [List.filter_eq_nil_iff]
    intro kg hkg hc
    rw [Bool.and_eq_true] at hc
    obtain ⟨hne, hnown⟩ := hc
    have hncase : hasOwnProp (esm t g) (PropKey.str kg.1) = false := by
      cases hb : hasOwnProp (esm t g) (PropKey.str kg.1)
      · rfl
      · rw [hb] at hnown
        simp at hnown
    have hyes : hasOwnProp (esm t g) (PropKey.str kg.1) = true := by
      rw [hasOwnProp_props, hprops]
      simp only [List.any_append, Bool.or_eq_true]
      by_cases h : hasOwnProp t (PropKey.str kg.1) = true
      · exact Or.inl (Or.inl (Or.inl h))
      · have h' : hasOwnProp t (PropKey.str kg.1) = false := by
          cases hb : hasOwnProp t (PropKey.str kg.1)
          · rfl
          · exact absurd hb h
        refine Or.inr ?_
        rw [List.any_eq_true]
        refine ⟨(PropKey.str kg.1, PropDesc.getterProp kg.2 true), ?_, by simp⟩
        refine List.mem_map_of_mem _ ?_
        rw [List.mem_filter]
        refine ⟨hkg, ?_⟩
        rw [Bool.and_eq_true]
        exact ⟨hne, by simp [h']⟩
    rw [hyes] at hncase
    cases hncase
  rw [hfilterNil]
  simp [hownEsm, hownTag]

/-- C7 counterexample: with `getters` containing the name `"__esModule"` and
an empty target, the target does not already own `"__esModule"`, yet `esm`
defines no enumerable getter for it — the marker pass installs a
non-enumerable data property under that name first, so the getter pass skips
it; this falsifies the claimed "enumerable getter iff not already owned". -/
theorem esm_esModule_getter_counterexample :
    hasOwnProp ⟨[]⟩ (PropKey.str "__esModule") = false ∧
    ownsEnumerableGetter (esm ⟨[]⟩ [("__esModule", 0)]) (PropKey.str "__esModule") = false ∧
    (esm ⟨[]⟩ [("__esModule", 0)]).props =
      [(PropKey.str "__esModule", PropDesc.dataProp (JSValue.boolean true) false),
       (PropKey.symToStringTag, PropDesc.dataProp (JSValue.string "Module") false)] :=
  ⟨by decide, by decide, by decide⟩

def c7WitnessTarget : JSObject := ⟨[(PropKey.str "a", PropDesc.dataProp (JSValue.number 5) true)]⟩

def c7WitnessGetters : List (String × Nat) := [("a", 1), ("b", 2)]

/-- Witness for C7 at a concrete target owning `"a"` and getters for `"a"`
and `"b"`: only `"b"` gains a getter, `"a"` is untouched, and a second call
changes nothing. -/
theorem esm_characterization_idempotent_witness :
    (c7WitnessGetters.map Prod.fst).Nodup ∧
    (((esm c7WitnessTarget c7WitnessGetters).props =
      c7WitnessTarget.props
      ++ (if hasOwnProp c7WitnessTarget (PropKey.str "__esModule") then []
          else [(PropKey.str "__esModule", PropDesc.dataProp (JSValue.boolean true) false)])
      ++ (if hasOwnProp c7WitnessTarget PropKey.symToStringTag then []
          else [(PropKey.symToStringTag, PropDesc.dataProp (JSValue.string "Module") false)])
      ++ (c7WitnessGetters.filter (fun kg => !(kg.1 == "__esModule") &&
            !hasOwnProp c7WitnessTarget (PropKey.str kg.1))).map
          (fun kg => (PropKey.str kg.1, PropDesc.getterProp kg.2 true))) ∧
    esm (esm c7WitnessTarget c7WitnessGetters) c7WitnessGetters =
      esm c7WitnessTarget c7WitnessGetters) :=
  ⟨by decide, esm_characterization_idempotent c7WitnessTarget c7WitnessGetters (by decide)⟩

theorem extraKeys_cons_pos (seen : List PropKey) (k : PropKey) (ks : List PropKey)
    (h : k = PropKey.str "default" ∨ k ∈ seen) :
    extraKeys seen (k :: ks) = extraKeys seen ks := by
  simp only [extraKeys]
  rw [if_pos h]

theorem extraKeys_cons_neg (seen : List PropKey) (k : PropKey) (ks : List PropKey)
    (h : ¬(k = PropKey.str "default" ∨ k ∈ seen)) :
    extraKeys seen (k :: ks) = k :: extraKeys (seen ++ [k]) ks := by
  simp only [extraKeys]
  rw [if_neg h]

theorem scanReexported_eq_find (env : Nat → JSValue) (l : List JSObject) (p : PropKey) :
    scanReexported env l p =
      match l.find? (fun o => jsGet env o p != JSValue.undefined) with
      | some o => jsGet env o p
      | none => JSValue.undefined := by
  induction l with
  | nil => rfl
  | cons o rest ih =>
    by_cases h : (jsGet env o p != JSValue.undefined) = true
    · have hfind : List.find? (fun x => jsGet env x p != JSValue.undefined) (o :: rest)
          = some o :=
        List.find?_cons_of_pos rest h
      rw [hfind]
      simp only [scanReexported]
      rw [if_pos h]
    · have hfind : List.find? (fun x => jsGet env x p != JSValue.undefined) (o :: rest)
          = List.find? (fun x => jsGet env x p != JSValue.undefined) rest :=
        List.find?_cons_of_neg rest h
      rw [hfind, ← ih]
      simp only [scanReexported]
      rw [if_neg (by simpa using h)]

theorem scanReexported_append (env : Nat → JSValue) (l1 l2 : List JSObject) (p : PropKey) :
    scanReexported env (l1 ++ l2) p =
      if scanReexported env l1 p != JSValue.undefined then scanReexported env l1 p
      else scanReexported env l2 p := by
  induction l1 with
  | nil => simp [scanReexported]
  | cons o rest ih =>
    rw [List.cons_append]
    by_cases h : (jsGet env o p != JSValue.undefined) = true
    · have h1 : scanReexported env (o :: rest) p = jsGet env o p := by
        simp only [scanReexported]
        rw [if_pos h]
      have h2 : scanReexported env (o :: (rest ++ l2)) p = jsGet env o p := by
        simp only [scanReexported]
        rw [if_pos h]
      rw [h2, h1, if_pos h]
    · have h1 : scanReexported env (o :: rest) p = scanReexported env rest p := by
        simp only [scanReexported]
        rw [if_neg (by simpa using h)]
      have h2 : scanReexported env (o :: (rest ++ l2)) p = scanReexported env (rest ++ l2) p := by
        simp only [scanReexported]
        rw [if_neg (by simpa using h)]
      rw [h2, h1, ih]

theorem scanReexported_singleton (env : Nat → JSValue) (obj : JSObject) (p : PropKey) :
    scanReexported env [obj] p = jsGet env obj p := by
  by_cases h : (jsGet env obj p != JSValue.undefined) = true
  · simp only [scanReexported]
    rw [if_pos h]
  · have h' : jsGet env obj p = JSValue.undefined := by
      simpa [bne_iff_ne] using h
    simp only [scanReexported]
    rw [if_neg (by simpa using h), h']

theorem ownKeys_inner_fold (okeys : List PropKey) (ks : List PropKey) :
    okeys.foldl
      (fun ks k => if k != PropKey.str "default" && !(ks.contains k) then ks ++ [k] else ks)
      ks = ks ++ extraKeys ks okeys := by
  induction okeys generalizing ks with
  | nil => simp [extraKeys]
  | cons k rest ih =>
    rw [List.foldl_cons]
    by_cases hd : k = PropKey.str "default"
    · rw [extraKeys_cons_pos ks k rest (Or.inl hd)]
      subst hd
      simp only [bne_self_eq_false, Bool.false_and, Bool.false_eq_true, if_false]
      exact ih ks
    · by_cases hm : k ∈ ks
      · rw [extraKeys_cons_pos ks k rest (Or.inr hm)]
        have hc : (k != PropKey.str "default" && !(ks.contains k)) = false := by
          simp [hm]
        rw [hc]
        simp only [Bool.false_eq_true, if_false]
        exact ih ks
      · rw [extraKeys_cons_neg ks k rest (by tauto)]
        have hc : (k != PropKey.str "default" && !(ks.contains k)) = true := by
          simp [hm, hd]
        rw [hc]
        simp only [if_true]
        rw [ih (ks ++ [k])]
        simp

theorem extraKeys_append (seen l1 l2 : List PropKey) :
    extraKeys seen (l1 ++ l2) =
      extraKeys seen l1 ++ extraKeys (seen ++ extraKeys seen l1) l2 := by
  induction l1 generalizing seen with
  | nil => simp [extraKeys]
  | cons k rest ih =>
    rw [List.cons_append]
    by_cases hc : k = PropKey.str "default" ∨ k ∈ seen
    · rw [extraKeys_cons_pos seen k (rest ++ l2) hc, extraKeys_cons_pos seen k rest hc]
      exact ih seen
    · rw [extraKeys_cons_neg seen k (rest ++ l2) hc, extraKeys_cons_neg seen k rest hc]
      rw [ih (seen ++ [k])]
      simp

theorem proxyOwnKeys_eq (target : JSObject) (ros : List JSObject) :
    proxyOwnKeys target ros =
      target.keys ++ extraKeys target.keys ((ros.map JSObject.keys).flatten) := by
  suffices h : ∀ acc : List PropKey,
      ros.foldl
        (fun keys obj =>
          obj.keys.foldl
            (fun ks k =>
              if k != PropKey.str "default" && !(ks.contains k) then ks ++ [k] else ks)
            keys)
        acc = acc ++ extraKeys acc ((ros.map JSObject.keys).flatten) by
    exact h target.keys
  induction ros with
  | nil =>
    intro acc
    simp [extraKeys]
  | cons o rest ih =>
    intro acc
    rw [List.foldl_cons, ownKeys_inner_fold, ih]
    rw [List.map_cons, List.flatten_cons, extraKeys_append]
    simp

/-- C8: the namespace proxy built by `dynamicExport` resolves a property by
returning the primary exports object's value whenever the name is an own
property of the primary object or is `"default"` or the `__esModule` marker,
and otherwise returns the value of the first registered source object (in
registration order) whose value for the name is defined, `undefined` when
none is — so a source registered later (appended by `dynamicExport`) can
never override a name an earlier source already supplies; enumeration yields
the primary object's own keys first, followed by each source's own keys in
registration order, excluding `"default"` and already-listed duplicates. -/
theorem dynamicExport_proxy_spec (env : Nat → JSValue) (target : JSObject)
    (ros more : List JSObject) (obj : JSObject) (p : PropKey) :
    proxyGet env target ros p =
      (if hasOwnProp target p || p == PropKey.str "default" || p == PropKey.str "__esModule"
       then jsGet env target p
       else
         match ros.find? (fun o => jsGet env o p != JSValue.undefined) with
         | some o => jsGet env o p
         | none => JSValue.undefined) ∧
    proxyGet env target (ros ++ more) p =
      (if hasOwnProp target p || p == PropKey.str "default" || p == PropKey.str "__esModule"
       then jsGet env target p
       else if scanReexported env ros p != JSValue.undefined then scanReexported env ros p
       else scanReexported env more p) ∧
    (dynamicExportSources (some ros) obj = ros ++ [obj] ∧
      proxyGet env target (dynamicExportSources (some ros) obj) p =
        (if hasOwnProp target p || p == PropKey.str "default" || p == PropKey.str "__esModule"
         then jsGet env target p
         else if scanReexported env ros p != JSValue.undefined then scanReexported env ros p
         else jsGet env obj p)) ∧
    proxyOwnKeys target ros =
      target.keys ++ extraKeys target.keys ((ros.map JSObject.keys).flatten) := by
  by_cases hc : (hasOwnProp target p || p == PropKey.str "default"
      || p == PropKey.str "__esModule") = true
  · refine ⟨?_, ?_, ⟨rfl, ?_⟩, proxyOwnKeys_eq target ros⟩
    · simp only [proxyGet]
      rw [if_pos hc, if_pos hc]
    · simp only [proxyGet]
      rw [if_pos hc, if_pos hc]
    · simp only [proxyGet]
      rw [if_pos hc, if_pos hc]
  · refine ⟨?_, ?_, ⟨rfl, ?_⟩, proxyOwnKeys_eq target ros⟩
    · simp only [proxyGet]
      rw [if_neg hc, if_neg hc]
      exact scanReexported_eq_find env ros p
    · simp only [proxyGet]
      rw [if_neg hc, if_neg hc]
      exact scanReexported_append env ros more p
    · simp only [proxyGet]
      rw [if_neg hc, if_neg hc]
      have h1 := scanReexported_append env ros [obj] p
      rw [show dynamicExportSources (some ros) obj = ros ++ [obj] from rfl, h1,
        scanReexported_singleton env obj p]

theorem jsRecordOf_fold (l : List (String × RequireContextEntry))
    (m : List (String × RequireContextEntry))
    (hnd : (l.map Prod.fst).Nodup)
    (hdisj : ∀ p ∈ l, ∀ q ∈ m, p.1 ≠ q.1) :
    l.foldl (fun m p => jsRecordSet m p.1 p.2) m = m ++ l := by
  induction l generalizing m with
  | nil => simp
  | cons p rest ih =>
    rw [List.map_cons, List.nodup_cons] at hnd
    rw [List.foldl_cons]
    have hfresh : (m.any fun q => q.1 == p.1) = false := by
      rw [List.any_eq_false]
      intro q hq
      simp only [beq_iff_eq]
      exact fun hh => (hdisj p (List.mem_cons_self _ _) q hq) hh.symm
    have hset : jsRecordSet m p.1 p.2 = m ++ [p] := by
      simp [jsRecordSet, hfresh]
    rw [hset]
    rw [ih (m ++ [p]) hnd.2 ?_]
    · simp
    · intro x hx q hq
      rcases List.mem_append.mp hq with hq' | hq'
      · exact hdisj x (List.mem_cons_of_mem _ hx) q hq'
      · have hq'' : q = p := List.mem_singleton.mp hq'
        subst hq''
        intro hcontra
        exact hnd.1 (hcontra ▸ List.mem_map_of_mem Prod.fst hx)

theorem lookup_eq_none_of_not_mem (l : List (String × RequireContextEntry)) (k : String)
    (h : k ∉ l.map Prod.fst) : l.lookup k = none := by
  induction l with
  | nil => rfl
  | cons p rest ih =>
    obtain ⟨k1, v1⟩ := p
    rw [List.map_cons, List.mem_cons] at h
    push_neg at h
    simp only [List.lookup]
    rw [beq_eq_false_iff_ne.mpr h.1]
    exact ih h.2

theorem lookup_eq_some_of_mem_nodup (l : List (String × RequireContextEntry)) (k : String)
    (e : RequireContextEntry) (hnd : (l.map Prod.fst).Nodup) (hmem : (k, e) ∈ l) :
    l.lookup k = some e := by
  induction l with
  | nil => cases hmem
  | cons p rest ih =>
    obtain ⟨k1, v1⟩ := p
    rw [List.map_cons, List.nodup_cons] at hnd
    rcases List.mem_cons.mp hmem with heq | hmem'
    · injection heq with h1 h2
      subst h1
      subst h2
      simp [List.lookup]
    · have hk : (k == k1) = false := by
        rw [beq_eq_false_iff_ne]
        intro hkk
        have hin : k ∈ rest.map Prod.fst := List.mem_map_of_mem Prod.fst hmem'
        rw [hkk] at hin
        exact hnd.1 hin
      simp only [List.lookup]
      rw [hk]
      exact ih hnd.2 hmem'

/-- C9: for a context map built from distinct keys, `.keys()` returns exactly
the map's keys in insertion order with no scanning; invoking the context with
an unknown id fails with the Error whose message names that id, and
`.resolve` fails with its own id-naming message; on a known key the call
delegates to the registry's `commonJsRequireContext` operation with the
corresponding entry, while `.resolve` returns the entry's module id directly
— `requireContextResolve` takes no registry operation at all, so resolving
cannot instantiate the module. -/
theorem requireContext_spec (reg : RequireContextEntry → JSValue)
    (l : List (String × RequireContextEntry)) (hnd : (l.map Prod.fst).Nodup) :
    requireContextKeys (jsRecordOf l) = l.map Prod.fst ∧
    (∀ id : String, id ∉ l.map Prod.fst →
      requireContextCall reg (jsRecordOf l) id =
        Except.error
          ("module " ++ id ++ " is required from a require.context, but is not in the context") ∧
      requireContextResolve (jsRecordOf l) id =
        Except.error
          ("module " ++ id ++ " is resolved from a require.context, but is not in the context")) ∧
    (∀ (id : String) (e : RequireContextEntry), (id, e) ∈ l →
      requireContextCall reg (jsRecordOf l) id = Except.ok (reg e) ∧
      requireContextResolve (jsRecordOf l) id = Except.ok e.id) := by
  have hid : jsRecordOf l = l := by
    have h := jsRecordOf_fold l [] hnd (fun p _ q hq => absurd hq (List.not_mem_nil q))
    simpa [jsRecordOf] using h
  rw [hid]
  refine ⟨rfl, ?_, ?_⟩
  · intro id hnm
    have hl := lookup_eq_none_of_not_mem l id hnm
    constructor
    · simp only [requireContextCall, hl]
    · simp only [requireContextResolve, hl]
  · intro id e hmem
    have hl := lookup_eq_some_of_mem_nodup l id e hnd hmem
    constructor
    · simp only [requireContextCall, hl]
    · simp only [requireContextResolve, hl]

def c9WitnessMap : List (String × RequireContextEntry) := [("./x", ⟨"idx"⟩), ("./y", ⟨"idy"⟩)]

/-- Witness for C9 over the map with keys `"./x"`, `"./y"`: the keys come
back in insertion order, `"./z"` fails with the id-naming error on both
operations, and known keys delegate / resolve as specified. -/
theorem requireContext_spec_witness :
    (c9WitnessMap.map Prod.fst).Nodup ∧
    (requireContextKeys (jsRecordOf c9WitnessMap) = c9WitnessMap.map Prod.fst ∧
      (∀ id : String, id ∉ c9WitnessMap.map Prod.fst →
        requireContextCall (fun e => JSValue.string e.id) (jsRecordOf c9WitnessMap) id =
          Except.error
            ("module " ++ id ++ " is required from a require.context, but is not in the context") ∧
        requireContextResolve (jsRecordOf c9WitnessMap) id =
          Except.error
            ("module " ++ id ++ " is resolved from a require.context, but is not in the context")) ∧
      (∀ (id : String) (e : RequireContextEntry), (id, e) ∈ c9WitnessMap →
        requireContextCall (fun e => JSValue.string e.id) (jsRecordOf c9WitnessMap) id =
          Except.ok (JSValue.string e.id) ∧
        requireContextResolve (jsRecordOf c9WitnessMap) id = Except.ok e.id)) :=
  ⟨by decide, requireContext_spec (fun e => JSValue.string e.id) c9WitnessMap (by decide)⟩
